import Mathlib

namespace Asynkaf

/-!
Verification of the asynkaf C extension (`src/asynkaf/_core`): a shallow
embedding of `queue.c` (the thread-safe FIFO message queue) and `consumer.c`
(the Kafka consumer object with its background poller thread), together with
theorems settling the specification's claims about them.

Modelling conventions:
* `rd_kafka_message_t` values are modelled by `KMessage`, carrying the `err`
  discriminant and an identifying payload.
* The malloc heap of `MessageNode`s is modelled by a partial map from
  addresses (`Nat`) to nodes; `MessageQueue` carries the `head`, `tail` and
  `size` fields of the C struct plus that heap and a fresh-address counter
  standing for the allocator.
* `message_queue_pop` blocks while the queue is empty; the blocked case is
  modelled as `none` (no result is produced until a push happens).
* The mutex and condition variable serialize the queue operations; the
  claims quantify over the serialized order of operations, so the lock and
  condition variable appear only in `message_queue_destroy`'s event trace.
-/

/-- A Kafka message record (`rd_kafka_message_t`): the `err` discriminant
plus an identifying payload. -/
structure KMessage where
  err : Bool
  payload : Nat
deriving DecidableEq, Repr

/-- Heap addresses for `MessageNode` allocations. -/
abbrev Addr := Nat

/-- `MessageNode` from `queue.h`: one message and the forward link. -/
structure MessageNode where
  message : KMessage
  next : Option Addr
deriving DecidableEq, Repr

/-- `MessageQueue` from `queue.h`: `head`, `tail`, `size`, plus the modelled
malloc heap of nodes (`mem`) and the allocator's next fresh address
(`alloc`).  `size` is the C `int` counter, modelled as `Int`. -/
structure MessageQueue where
  mem : Addr → Option MessageNode
  head : Option Addr
  tail : Option Addr
  size : Int
  alloc : Addr

/-- `message_queue_init`: head = tail = NULL, size = 0, empty heap. -/
def message_queue_init : MessageQueue :=
  { mem := fun _ => none, head := none, tail := none, size := 0, alloc := 0 }

/-- Write the `next` field of the node stored at address `t`
(`queue->tail->next = new_node`). -/
def setNext (mem : Addr → Option MessageNode) (t : Addr) (nx : Option Addr) :
    Addr → Option MessageNode :=
  fun x => if x = t then (mem x).map (fun n => { n with next := nx }) else mem x

/-- `message_queue_push`: malloc a new node holding `m` with `next = NULL`,
then (under the lock) link it after `tail` — or install it as the sole node
when the queue is empty — update `tail`, and increment `size`. -/
def message_queue_push (q : MessageQueue) (m : KMessage) : MessageQueue :=
  let a := q.alloc
  let mem1 : Addr → Option MessageNode :=
    fun x => if x = a then some ⟨m, none⟩ else q.mem x
  match q.tail with
  | some t =>
      { mem := setNext mem1 t (some a), head := q.head, tail := some a,
        size := q.size + 1, alloc := a + 1 }
  | none =>
      { mem := mem1, head := some a, tail := some a,
        size := q.size + 1, alloc := a + 1 }

/-- `message_queue_pop`: blocks while `head == NULL` (modelled as `none`);
otherwise unlinks the head node, sets `tail = NULL` if the queue became
empty, decrements `size`, frees the node and returns its message.  A
dangling `head` (never reachable from well-formed states) is undefined
behavior in C and is also modelled as `none`. -/
def message_queue_pop (q : MessageQueue) : Option (KMessage × MessageQueue) :=
  match q.head with
  | none => none
  | some h =>
    match q.mem h with
    | none => none
    | some node =>
      let head2 := node.next
      let tail2 := if head2 = none then none else q.tail
      some (node.message,
        { mem := fun x => if x = h then none else q.mem x,
          head := head2, tail := tail2, size := q.size - 1, alloc := q.alloc })

/-- Observable events of `message_queue_destroy`. -/
inductive QEvent
  | lockQ
  | releaseMsg (m : KMessage)
  | freeNode (a : Addr)
  | unlockQ
  | mutexDestroy
  | condDestroy
deriving DecidableEq, Repr

/-- The drain loop of `message_queue_destroy`: while `head` is non-null,
destroy the head node's message and free the node, advancing `head`.  The
C loop is a `while`; the fuel argument bounds its iterations, and `none`
marks the cases (cycle in the heap, dangling pointer) that are undefined
behavior in C and unreachable from well-formed states.  `tail` and `size`
are not touched by the loop, exactly as in the C code. -/
def destroyLoop : Nat → MessageQueue → Option (MessageQueue × List QEvent)
  | 0, q =>
    match q.head with
    | none => some (q, [])
    | some _ => none
  | f + 1, q =>
    match q.head with
    | none => some (q, [])
    | some h =>
      match q.mem h with
      | none => none
      | some node =>
        (destroyLoop f
            { q with head := node.next,
                     mem := fun x => if x = h then none else q.mem x }).map
          (fun r => (r.1, QEvent.releaseMsg node.message :: QEvent.freeNode h :: r.2))

/-- `message_queue_destroy`: lock, drain every remaining node from `head`
(destroying each message and freeing each node), unlock, then destroy the
mutex and the condition variable.  Returns the final struct state and the
event trace. -/
def message_queue_destroy (q : MessageQueue) : Option (MessageQueue × List QEvent) :=
  (destroyLoop q.size.toNat q).map
    (fun r => (r.1, QEvent.lockQ :: r.2 ++ [QEvent.unlockQ, QEvent.mutexDestroy, QEvent.condDestroy]))

/-!
## Representation relation

`ChainRep mem head as ms` says: starting from the optional address `head`
and following `next` links through the heap `mem`, one visits exactly the
addresses `as` holding exactly the messages `ms`, and the last node's
`next` is null.
-/

/-- The linked-list chain from an optional head address. -/
inductive ChainRep (mem : Addr → Option MessageNode) :
    Option Addr → List Addr → List KMessage → Prop
  | nil : ChainRep mem none [] []
  | cons {a : Addr} {m : KMessage} {nx : Option Addr} {as : List Addr}
      {ms : List KMessage} :
      mem a = some ⟨m, nx⟩ → ChainRep mem nx as ms →
      ChainRep mem (some a) (a :: as) (m :: ms)

/-- The queue struct is well formed and represents the message sequence
`ms` laid out at addresses `as`: the chain from `head` visits `as`/`ms`,
`tail` is the last chain address, `size` counts the chain, addresses are
distinct and all below the allocator watermark. -/
def QueueRep (q : MessageQueue) (as : List Addr) (ms : List KMessage) : Prop :=
  ChainRep q.mem q.head as ms ∧
  q.tail = as.getLast? ∧
  q.size = (as.length : Int) ∧
  as.Nodup ∧
  (∀ a ∈ as, a < q.alloc)

/-- The events emitted by the drain loop of `message_queue_destroy`: for
each node, destroy its message and free the node, in chain order. -/
def drainEvents : List Addr → List KMessage → List QEvent
  | a :: as, m :: ms => QEvent.releaseMsg m :: QEvent.freeNode a :: drainEvents as ms
  | _, _ => []

/-!
## Push/pop sequences
-/

/-- Push the messages of `ms` in order (a single producer). -/
def pushAll (q : MessageQueue) (ms : List KMessage) : MessageQueue :=
  ms.foldl message_queue_push q

/-- Perform `n` pops in order, collecting the returned messages. -/
def popAll : Nat → MessageQueue → Option (List KMessage × MessageQueue)
  | 0, q => some ([], q)
  | n + 1, q =>
    (message_queue_pop q).bind fun r => (popAll n r.2).map fun s => (r.1 :: s.1, s.2)

/-!
## Reachable queue states
-/

/-- Queue states reachable from `message_queue_init` by any sequence of
pushes and (completed) pops. -/
inductive Reachable : MessageQueue → Prop
  | init : Reachable message_queue_init
  | push {q : MessageQueue} (m : KMessage) : Reachable q →
      Reachable (message_queue_push q m)
  | pop {q q2 : MessageQueue} {m : KMessage} : Reachable q →
      message_queue_pop q = some (m, q2) → Reachable q2

/-!
## Background poller (`poller_thread_func` in consumer.c)
-/

/-- One result of `rd_kafka_consumer_poll(rk, 1000)`: `none` models a
timeout (NULL), `some m` a returned message record with `m.err` the error
discriminant. -/
abbrev PollResult := Option KMessage

/-- The receive timeout passed to `rd_kafka_consumer_poll` by
`poller_thread_func`, in milliseconds. -/
def poll_timeout_ms : Nat := 1000

/-- The body of `poller_thread_func`'s while loop for one poll result: an
error record is destroyed (collected in the released list), a successful
message is pushed onto the queue, a null result does nothing. -/
def poller_iter (q : MessageQueue) (r : PollResult) : MessageQueue × List KMessage :=
  match r with
  | none => (q, [])
  | some m => if m.err then (q, [m]) else (message_queue_push q m, [])

/-- `poller_thread_func`'s loop: at iteration `i` it reads `run_poller`
(`flags i`); while the flag reads true it polls (`polls i`), handles the
result, and loops.  It returns the final queue, the destroyed error
records in order, and the iteration index at which the cleared flag was
observed.  `fuel` bounds the modelled execution; `none` means the flag was
still set when fuel ran out (the loop was still running). -/
def pollerRun (flags : Nat → Bool) (polls : Nat → PollResult) :
    Nat → Nat → MessageQueue → Option (MessageQueue × List KMessage × Nat)
  | 0, _, _ => none
  | fuel + 1, i, q =>
    if flags i then
      let r := poller_iter q (polls i)
      (pollerRun flags polls fuel (i + 1) r.1).map
        (fun s => (s.1, r.2 ++ s.2.1, s.2.2))
    else some (q, [], i)

/-- The poll results of iterations `i, i+1, ..., i+k-1`. -/
def pollsFrom (polls : Nat → PollResult) (i k : Nat) : List PollResult :=
  (List.range k).map (fun j => polls (i + j))

/-- The successfully received messages among a list of poll results, in
order (the non-null results with a clear `err` discriminant). -/
def pollSuccesses : List PollResult → List KMessage
  | [] => []
  | none :: rest => pollSuccesses rest
  | some m :: rest => if m.err then pollSuccesses rest else m :: pollSuccesses rest

/-- The error records among a list of poll results, in order. -/
def pollErrors : List PollResult → List KMessage
  | [] => []
  | none :: rest => pollErrors rest
  | some m :: rest => if m.err then m :: pollErrors rest else pollErrors rest

/-!
## Consumer lifecycle (consumer.c)

The broker client library (librdkafka) is an external collaborator; its
observable responses are a parameter (`BrokerEnv`).  `rd_kafka_conf_set`
answers `none` for OK or `some errstr` for a rejected setting;
`rd_kafka_new` answers `none` for a created handle or `some errstr` for a
creation failure.  Ownership convention of the library: the configuration
object created by `rd_kafka_conf_new` is consumed by `rd_kafka_new` only
on success; on every failure path it remains owned by the caller.
-/

/-- Responses of the external broker client library. -/
structure BrokerEnv where
  confSet : String → String → Option String
  clientNew : Option String

/-- The observable state of a `ConsumerObject` and of the collaborator
resources touched by `Consumer_init`. -/
structure InitState where
  confAllocated : Bool
  confOwnedByClient : Bool
  confDestroyed : Bool
  rkCreated : Bool
  queueInited : Bool
  run_poller : Bool
  pollerStarted : Bool
  pyError : Option (String × String)
deriving DecidableEq, Repr

/-- The all-clear state of a freshly considered object: no resources, no
error. -/
def initState0 : InitState :=
  { confAllocated := false, confOwnedByClient := false, confDestroyed := false,
    rkCreated := false, queueInited := false, run_poller := false,
    pollerStarted := false, pyError := none }

/-- `Consumer_init` (after successful argument parsing): create a conf
object, set `bootstrap.servers`, `group.id` and `enable.auto.commit`
(each early-returning −1 with a `ValueError` on rejection), create the
client handle (−1 with a `RuntimeError` on failure), then initialize the
message queue, set `run_poller = 1`, and start the poller thread.  The
returned `Bool` is true for the C return value 0 and false for −1.  No
failure path destroys the conf object. -/
def Consumer_init (env : BrokerEnv) (bootstrap_servers group_id : String) :
    Bool × InitState :=
  let st := { initState0 with confAllocated := true }
  match env.confSet "bootstrap.servers" bootstrap_servers with
  | some e => (false, { st with pyError := some ("ValueError", e) })
  | none =>
    match env.confSet "group.id" group_id with
    | some e => (false, { st with pyError := some ("ValueError", e) })
    | none =>
      match env.confSet "enable.auto.commit" "false" with
      | some e => (false, { st with pyError := some ("ValueError", e) })
      | none =>
        match env.clientNew with
        | some e => (false, { st with pyError := some ("RuntimeError", e) })
        | none =>
          (true, { st with confOwnedByClient := true, rkCreated := true,
                           queueInited := true, run_poller := true,
                           pollerStarted := true })

/-- The claim's reading of "no partial state is retained / no resources
held" after a failed initialization, applied to the collaborator resource
ledger: every allocated configuration object has been handed to the client
or destroyed. -/
def noResourcesHeld (st : InitState) : Prop :=
  st.confAllocated = true → (st.confOwnedByClient = true ∨ st.confDestroyed = true)

/-- The steps of `Consumer_dealloc`, in program order. -/
inductive DAction
  | clearRunFlag
  | joinPoller
  | consumerClose
  | clientDestroy
  | queueDestroy
  | freeObject
deriving DecidableEq, Repr

/-- `Consumer_dealloc`'s body: clear `run_poller`, `pthread_join` the
poller thread (blocking until the thread function returns), close the
Kafka consumer, destroy the client handle, destroy the message queue, free
the Python object.  The body is straight-line: no step is guarded by any
check of the object's fields. -/
def Consumer_dealloc_steps : List DAction :=
  [DAction.clearRunFlag, DAction.joinPoller, DAction.consumerClose,
   DAction.clientDestroy, DAction.queueDestroy, DAction.freeObject]

/-- Outcome of `create_consumer`: the returned object on success; on
`Consumer_init` failure the object is released with `Py_DECREF`, which
(refcount 1 → 0) invokes `Consumer_dealloc` on the partially-initialized
object.  `deallocTrace` records the teardown steps run in that case and
`stateAtDealloc` the object/ledger state they operate on. -/
structure CreateResult where
  success : Bool
  deallocRan : Bool
  deallocTrace : List DAction
  stateAtDealloc : Option InitState
deriving DecidableEq, Repr

/-- `create_consumer`: allocate with `PyObject_New` (fields uninitialized),
run `Consumer_init`; on failure `Py_DECREF` the object, running the full
`Consumer_dealloc` sequence on the never-initialized fields. -/
def create_consumer (env : BrokerEnv) (bootstrap_servers group_id : String) :
    CreateResult :=
  let r := Consumer_init env bootstrap_servers group_id
  if r.1 then
    { success := true, deallocRan := false, deallocTrace := [],
      stateAtDealloc := none }
  else
    { success := false, deallocRan := true,
      deallocTrace := Consumer_dealloc_steps, stateAtDealloc := some r.2 }

/-- Memory-ordering discipline of an access to a shared field. -/
inductive MemOrder
  | plain
  | relaxed
  | acquireRelease
  | seqCst
deriving DecidableEq, Repr

/-- Does the ordering give at least acquire/release visibility? -/
def MemOrder.atLeastAcqRel : MemOrder → Bool
  | MemOrder.acquireRelease => true
  | MemOrder.seqCst => true
  | _ => false

/-- Declaration-level model of a shared flag field: its C type and the
ordering discipline of the accesses the code performs on it. -/
structure FlagDecl where
  ctype : String
  access : MemOrder
deriving DecidableEq, Repr

/-- The `run_poller` field of `ConsumerObject`: declared `int run_poller;`,
written by `self->run_poller = 0` in `Consumer_dealloc` and read by
`while (self->run_poller)` in `poller_thread_func`, with no atomic
qualifier, no synchronization primitive, and no lock. -/
def run_poller_decl : FlagDecl :=
  { ctype := "int", access := MemOrder.plain }

/-- The method table of the `_core.Consumer` type object: `ConsumerType`
sets only `tp_new`, `tp_init` and `tp_dealloc`; `tp_methods` is left null,
so the type exposes no methods. -/
def ConsumerType_methods : List String := []

/-- The `_core` module's method table (`core_methods` in `_core.c`). -/
def core_module_methods : List String := ["create_consumer"]

/-!
## Concrete inputs used to instantiate the claim theorems
-/

/-- The invariant stated by the specification for the queue struct:
the null/empty conditions agree across `head`, `tail` and `size`, and the
traversal from `head` along `next` links reaches `tail` in exactly `size`
steps. -/
def QueueInvariantHolds (q : MessageQueue) : Prop :=
  (q.head = none ↔ q.tail = none) ∧
  (q.head = none ↔ q.size = 0) ∧
  ∃ as ms, ChainRep q.mem q.head as ms ∧ q.tail = as.getLast? ∧
    q.size = (as.length : Int)

/-- Flag history for a poller run: true for the first three reads. -/
def wFlags : Nat → Bool := fun i => decide (i < 3)

/-- Poll results mixing an error record, a success and a timeout. -/
def wPolls : Nat → PollResult := fun i =>
  if i = 0 then some ⟨true, 0⟩ else if i = 1 then some ⟨false, 1⟩ else none

/-- Flag history that is cleared from the start. -/
def wFlagsOff : Nat → Bool := fun _ => false

/-- A broker environment that accepts every setting and creates the client
(librdkafka accepts any value, the empty string included, for string
properties such as bootstrap.servers). -/
def envAcceptAll : BrokerEnv :=
  { confSet := fun _ _ => none, clientNew := none }

/-- A broker environment that rejects the group.id setting. -/
def envRejectGroup : BrokerEnv :=
  { confSet := fun p _ => if p = "group.id" then some "Invalid group.id" else none,
    clientNew := none }

/-- A broker environment in which client creation fails. -/
def envNewFails : BrokerEnv :=
  { confSet := fun _ _ => none, clientNew := some "Failed to create consumer" }

/-- A queue holding exactly one pushed message. -/
def q1 : MessageQueue := message_queue_push message_queue_init ⟨false, 42⟩

/-!
## The claims
-/

theorem rep_init : QueueRep message_queue_init [] [] := by
  refine ⟨ChainRep.nil, rfl, rfl, List.nodup_nil, ?_⟩
  intro a ha
  cases ha

theorem chainRep_length {mem : Addr → Option MessageNode} {h : Option Addr}
    {as : List Addr} {ms : List KMessage} (c : ChainRep mem h as ms) :
    as.length = ms.length := by
  induction c with
  | nil => rfl
  | cons _ _ ih => simp [ih]

theorem chainRep_congr {mem mem2 : Addr → Option MessageNode} {h : Option Addr}
    {as : List Addr} {ms : List KMessage} (c : ChainRep mem h as ms)
    (agree : ∀ a ∈ as, mem2 a = mem a) : ChainRep mem2 h as ms := by
  induction c with
  | nil => exact ChainRep.nil
  | cons hm _ ih =>
    refine ChainRep.cons ?_ (ih ?_)
    · rw [agree _ (by simp)]; exact hm
    · intro a ha; exact agree a (by simp [ha])

theorem chainRep_head_none {mem : Addr → Option MessageNode}
    {as : List Addr} {ms : List KMessage} (c : ChainRep mem none as ms) :
    as = [] ∧ ms = [] := by
  cases c; exact ⟨rfl, rfl⟩

theorem chainRep_head_some {mem : Addr → Option MessageNode} {a : Addr}
    {as : List Addr} {ms : List KMessage} (c : ChainRep mem (some a) as ms) :
    as ≠ [] := by
  cases c; simp

theorem getLast?_mem_of_eq {α : Type _} {l : List α} {x : α}
    (h : l.getLast? = some x) : x ∈ l := by
  obtain ⟨hne, rfl⟩ := List.mem_getLast?_eq_getLast (show x ∈ l.getLast? by rw [h]; rfl)
  exact List.getLast_mem hne

/-- Extending a chain at its tail: allocate a fresh node at `a` holding `m`
and point the old last node's `next` at it. -/
theorem chainRep_snoc {mem : Addr → Option MessageNode} {h : Option Addr}
    {as : List Addr} {ms : List KMessage} {t a : Addr} {m : KMessage}
    (c : ChainRep mem h as ms) :
    as.getLast? = some t → a ∉ as → as.Nodup →
    ChainRep (setNext (fun x => if x = a then some ⟨m, none⟩ else mem x) t (some a))
      h (as ++ [a]) (ms ++ [m]) := by
  induction c with
  | nil => intro hlast _ _; simp at hlast
  | @cons x mx nx as' ms' hm c' ih =>
    intro hlast hfresh hnd
    have hxa : x ≠ a := by
      intro hxa; exact hfresh (hxa ▸ List.mem_cons_self x as')
    cases as' with
    | nil =>
      -- x is the last node: its next field is rewritten to `some a`.
      cases c'
      have hx : x = t := by simpa using hlast
      subst hx
      have hat : a ≠ x := fun hh => hfresh (by simp [hh])
      exact @ChainRep.cons _ x mx (some a) [a] [m]
        (by simp [setNext, hxa, hm])
        (@ChainRep.cons _ a m none [] []
          (by simp [setNext, hat]) ChainRep.nil)
    | cons y as'' =>
      -- x is not the last node: its entry is untouched, recurse.
      have h2 : (y :: as'').getLast? = some t := by
        rw [List.getLast?_cons_cons] at hlast; exact hlast
      have hxt : x ≠ t := by
        intro hxt
        subst hxt
        exact (List.nodup_cons.mp hnd).1 (getLast?_mem_of_eq h2)
      refine ChainRep.cons ?_
        (ih h2 (fun hh => hfresh (by simp [hh])) (List.Nodup.of_cons hnd))
      simp [setNext, hxa, hxt, hm]

theorem chainRep_nil_inv {mem : Addr → Option MessageNode} {h : Option Addr}
    {ms : List KMessage} (c : ChainRep mem h [] ms) : h = none ∧ ms = [] := by
  cases c; exact ⟨rfl, rfl⟩

theorem chainRep_cons_inv {mem : Addr → Option MessageNode} {h : Option Addr}
    {a : Addr} {as : List Addr} {m : KMessage} {ms : List KMessage}
    (c : ChainRep mem h (a :: as) (m :: ms)) :
    h = some a ∧ ∃ nx, mem a = some ⟨m, nx⟩ ∧ ChainRep mem nx as ms := by
  cases c with
  | cons hm c' => exact ⟨rfl, _, hm, c'⟩

/-- `message_queue_push` refines appending: it extends the represented
sequence by `m`, laying the new node at the old allocator watermark. -/
theorem rep_push {q : MessageQueue} {as : List Addr} {ms : List KMessage}
    (hr : QueueRep q as ms) (m : KMessage) :
    QueueRep (message_queue_push q m) (as ++ [q.alloc]) (ms ++ [m]) := by
  obtain ⟨hc, htail, hsize, hnd, hlt⟩ := hr
  have hfresh : q.alloc ∉ as := fun hmem => lt_irrefl _ (hlt _ hmem)
  cases htq : q.tail with
  | none =>
    have has : as = [] := by
      refine List.getLast?_eq_none_iff.mp ?_
      rw [← htail, htq]
    subst has
    obtain ⟨hh, hms⟩ := chainRep_nil_inv hc
    subst hms
    unfold message_queue_push
    rw [htq]
    refine ⟨ChainRep.cons (by simp) ChainRep.nil, by simp, ?_, by simp, ?_⟩
    · show q.size + 1 = ((([] : List Addr) ++ [q.alloc]).length : Int)
      simp only [List.length_nil, Nat.cast_zero] at hsize
      simp [hsize]
    · show ∀ b ∈ ([] : List Addr) ++ [q.alloc], b < q.alloc + 1
      intro b hb
      simp at hb
      subst hb
      exact Nat.lt_succ_self _
  | some t =>
    have hlast : as.getLast? = some t := by rw [← htail, htq]
    have hchain := chainRep_snoc (t := t) (a := q.alloc) (m := m) hc hlast hfresh hnd
    unfold message_queue_push
    rw [htq]
    refine ⟨hchain, by simp, ?_, ?_, ?_⟩
    · show q.size + 1 = ((as ++ [q.alloc]).length : Int)
      simp only [List.length_append, List.length_cons, List.length_nil] at hsize ⊢
      push_cast at hsize ⊢
      omega
    · refine List.Nodup.append hnd (by simp) ?_
      intro b hb hb2
      simp at hb2
      exact hfresh (hb2 ▸ hb)
    · show ∀ b ∈ as ++ [q.alloc], b < q.alloc + 1
      intro b hb
      rcases List.mem_append.mp hb with hb | hb
      · exact lt_trans (hlt b hb) (Nat.lt_succ_self _)
      · simp at hb
        subst hb
        exact Nat.lt_succ_self _

/-- `message_queue_pop` on a non-empty queue refines taking the head of the
represented sequence. -/
theorem rep_pop {q : MessageQueue} {a : Addr} {as : List Addr} {m : KMessage}
    {ms : List KMessage} (hr : QueueRep q (a :: as) (m :: ms)) :
    ∃ q2, message_queue_pop q = some (m, q2) ∧ QueueRep q2 as ms := by
  obtain ⟨hc, htail, hsize, hnd, hlt⟩ := hr
  obtain ⟨hh, nx, hma, hc'⟩ := chainRep_cons_inv hc
  have hnotin : a ∉ as := (List.nodup_cons.mp hnd).1
  refine ⟨{ mem := fun x => if x = a then none else q.mem x,
            head := nx, tail := if nx = none then none else q.tail,
            size := q.size - 1, alloc := q.alloc }, ?_, ?_, ?_, ?_, ?_, ?_⟩
  · simp only [message_queue_pop, hh, hma]
  · exact chainRep_congr hc' (fun b hb => by
      have hba : b ≠ a := fun hba => hnotin (hba ▸ hb)
      simp [hba])
  · show (if nx = none then none else q.tail) = as.getLast?
    cases nx with
    | none =>
      obtain ⟨has, _⟩ := chainRep_head_none hc'
      simp [has]
    | some y =>
      cases as with
      | nil => exact absurd (chainRep_nil_inv hc').1 (by simp)
      | cons z zs => simp [htail, List.getLast?_cons_cons]
  · show q.size - 1 = (as.length : Int)
    simp only [List.length_cons] at hsize
    push_cast at hsize
    omega
  · exact List.Nodup.of_cons hnd
  · intro b hb
    exact hlt b (List.mem_cons_of_mem a hb)

/-- `message_queue_pop` blocks (produces nothing) on an empty queue. -/
theorem rep_pop_empty {q : MessageQueue} (hr : QueueRep q [] []) :
    message_queue_pop q = none := by
  obtain ⟨hc, _, _, _, _⟩ := hr
  obtain ⟨hh, _⟩ := chainRep_nil_inv hc
  unfold message_queue_pop
  rw [hh]

theorem destroyLoop_head_none {fuel : Nat} {q : MessageQueue}
    (hh : q.head = none) : destroyLoop fuel q = some (q, []) := by
  cases fuel with
  | zero => unfold destroyLoop; rw [hh]
  | succ f => unfold destroyLoop; rw [hh]

theorem destroyLoop_spec {as : List Addr} :
    ∀ (fuel : Nat) {q : MessageQueue} {ms : List KMessage},
      ChainRep q.mem q.head as ms → as.Nodup → as.length ≤ fuel →
      ∃ q2, destroyLoop fuel q = some (q2, drainEvents as ms) ∧
        q2.head = none ∧ q2.tail = q.tail ∧ q2.size = q.size ∧ q2.alloc = q.alloc := by
  induction as with
  | nil =>
    intro fuel q ms hc _ _
    obtain ⟨hh, hms⟩ := chainRep_nil_inv hc
    subst hms
    exact ⟨q, destroyLoop_head_none hh, hh, rfl, rfl, rfl⟩
  | cons a as' ih =>
    intro fuel q ms hc hnd hfuel
    cases ms with
    | nil =>
      have := chainRep_length hc
      simp at this
    | cons m ms' =>
      obtain ⟨hh, nx, hma, hc'⟩ := chainRep_cons_inv hc
      have hnotin : a ∉ as' := (List.nodup_cons.mp hnd).1
      cases fuel with
      | zero => simp at hfuel
      | succ f =>
        have hc2 : ChainRep (fun x => if x = a then none else q.mem x) nx as' ms' :=
          chainRep_congr hc' (fun b hb => by
            have hba : b ≠ a := fun hba => hnotin (hba ▸ hb)
            simp [hba])
        obtain ⟨q2, heq, hh2, ht2, hs2, ha2⟩ :=
          ih f (q := { q with head := nx, mem := fun x => if x = a then none else q.mem x })
            hc2 (List.Nodup.of_cons hnd) (by simp at hfuel; omega)
        refine ⟨q2, ?_, hh2, ht2, hs2, ha2⟩
        unfold destroyLoop
        simp only [hh, hma]
        rw [heq]
        rfl

/-- `message_queue_destroy` on a well-formed queue: locks, releases every
remaining message and frees every node from `head` in order, unlocks, then
destroys the mutex and condition variable.  `head` ends null; `tail` and
`size` are left untouched by the C code. -/
theorem rep_destroy {q : MessageQueue} {as : List Addr} {ms : List KMessage}
    (hr : QueueRep q as ms) :
    ∃ q2, message_queue_destroy q =
        some (q2, QEvent.lockQ :: drainEvents as ms ++
          [QEvent.unlockQ, QEvent.mutexDestroy, QEvent.condDestroy]) ∧
      q2.head = none ∧ q2.tail = q.tail ∧ q2.size = q.size := by
  obtain ⟨hc, htail, hsize, hnd, hlt⟩ := hr
  have hfuel : q.size.toNat = as.length := by
    rw [hsize]
    exact Int.toNat_ofNat _
  obtain ⟨q2, heq, hh2, ht2, hs2, _⟩ :=
    destroyLoop_spec q.size.toNat hc hnd (by omega)
  refine ⟨q2, ?_, hh2, ht2, hs2⟩
  unfold message_queue_destroy
  rw [heq]
  rfl

theorem rep_pushAll {q : MessageQueue} {as : List Addr} {ms : List KMessage}
    (hr : QueueRep q as ms) (l : List KMessage) :
    ∃ as2, QueueRep (pushAll q l) as2 (ms ++ l) := by
  induction l generalizing q as ms with
  | nil => exact ⟨as, by simpa using hr⟩
  | cons x xs ih =>
    obtain ⟨as2, h2⟩ := ih (rep_push hr x)
    refine ⟨as2, ?_⟩
    simpa [pushAll] using h2

theorem rep_popAll {ms : List KMessage} :
    ∀ {q : MessageQueue} {as : List Addr}, QueueRep q as ms →
      ∃ q2, popAll ms.length q = some (ms, q2) ∧ QueueRep q2 [] [] := by
  induction ms with
  | nil =>
    intro q as hr
    have has : as = [] := by
      have hl := chainRep_length hr.1
      simpa using List.length_eq_zero.mp (by simpa using hl)
    subst has
    exact ⟨q, rfl, hr⟩
  | cons m ms' ih =>
    intro q as hr
    cases as with
    | nil =>
      have hl := chainRep_length hr.1
      simp at hl
    | cons a as' =>
      obtain ⟨q1, hpop, hr1⟩ := rep_pop hr
      obtain ⟨q2, hrec, hr2⟩ := ih hr1
      refine ⟨q2, ?_, hr2⟩
      simp [popAll, hpop, hrec]

theorem reachable_rep {q : MessageQueue} (h : Reachable q) :
    ∃ as ms, QueueRep q as ms := by
  induction h with
  | init => exact ⟨[], [], rep_init⟩
  | push m _ ih =>
    obtain ⟨as, ms, hr⟩ := ih
    exact ⟨_, _, rep_push hr m⟩
  | pop _ hpop ih =>
    obtain ⟨as, ms, hr⟩ := ih
    cases as with
    | nil =>
      cases ms with
      | nil =>
        rw [rep_pop_empty hr] at hpop
        cases hpop
      | cons _ _ =>
        have := chainRep_length hr.1
        simp at this
    | cons a as' =>
      cases ms with
      | nil =>
        have := chainRep_length hr.1
        simp at this
      | cons m' ms' =>
        obtain ⟨q2, hpop2, hr2⟩ := rep_pop hr
        have heq := hpop2.symm.trans hpop
        simp only [Option.some_inj, Prod.mk.injEq] at heq
        exact heq.2 ▸ ⟨_, _, hr2⟩

theorem pollsFrom_succ (polls : Nat → PollResult) (i k : Nat) :
    pollsFrom polls i (k + 1) = polls i :: pollsFrom polls (i + 1) k := by
  unfold pollsFrom
  rw [List.range_succ_eq_map, List.map_cons, List.map_map]
  refine congrArg (polls (i + 0) :: ·) ?_
  refine List.map_congr_left ?_
  intro j _
  exact congrArg polls (by omega)

theorem pollSuccesses_no_err {l : List PollResult} :
    ∀ m ∈ pollSuccesses l, m.err = false := by
  induction l with
  | nil => intro m hm; cases hm
  | cons r rest ih =>
    intro m hm
    cases r with
    | none => exact ih m hm
    | some x =>
      by_cases hx : x.err
      · rw [pollSuccesses, if_pos hx] at hm
        exact ih m hm
      · rw [pollSuccesses, if_neg hx] at hm
        rcases List.mem_cons.mp hm with hm | hm
        · subst hm
          simpa using hx
        · exact ih m hm

/-- Characterization of the poller loop: if the flag reads true for the
first `k` iterations and false at iteration `i + k`, the loop performs
exactly `k` polls, pushes exactly the successful results — in arrival
order — destroys exactly the error results, and exits at iteration `i + k`
without consuming any later poll. -/
theorem pollerRun_spec {k : Nat} :
    ∀ (i fuel : Nat) (flags : Nat → Bool) (polls : Nat → PollResult)
      {q : MessageQueue} {as : List Addr} {ms : List KMessage},
      (∀ j, j < k → flags (i + j) = true) → flags (i + k) = false →
      k + 1 ≤ fuel → QueueRep q as ms →
      ∃ q2 as2, pollerRun flags polls fuel i q =
          some (q2, pollErrors (pollsFrom polls i k), i + k) ∧
        QueueRep q2 as2 (ms ++ pollSuccesses (pollsFrom polls i k)) := by
  induction k with
  | zero =>
    intro i fuel flags polls q as ms _ hstop hfuel hrep
    cases fuel with
    | zero => omega
    | succ f =>
      refine ⟨q, as, ?_, by simpa [pollsFrom, pollSuccesses] using hrep⟩
      unfold pollerRun
      rw [show flags i = false by simpa using hstop]
      simp [pollsFrom, pollErrors]
  | succ k ih =>
    intro i fuel flags polls q as ms hrun hstop hfuel hrep
    cases fuel with
    | zero => omega
    | succ f =>
      have hfi : flags i = true := by simpa using hrun 0 (by omega)
      have hrun2 : ∀ j, j < k → flags (i + 1 + j) = true := by
        intro j hj
        have := hrun (j + 1) (by omega)
        rwa [show i + (j + 1) = i + 1 + j by omega] at this
      have hstop2 : flags (i + 1 + k) = false := by
        rwa [show i + (k + 1) = i + 1 + k by omega] at hstop
      have hidx : i + 1 + k = i + (k + 1) := by omega
      rw [pollsFrom_succ]
      cases hpi : polls i with
      | none =>
        obtain ⟨q2, as2, heq, hrep2⟩ := ih (i + 1) f flags polls hrun2 hstop2 (by omega) hrep
        refine ⟨q2, as2, ?_, by simpa [pollSuccesses] using hrep2⟩
        unfold pollerRun
        rw [hfi]
        simp only [if_true, poller_iter, hpi]
        rw [heq]
        simp [pollErrors, hidx]
      | some m =>
        by_cases hme : m.err
        · obtain ⟨q2, as2, heq, hrep2⟩ := ih (i + 1) f flags polls hrun2 hstop2 (by omega) hrep
          refine ⟨q2, as2, ?_, by simpa [pollSuccesses, hme] using hrep2⟩
          unfold pollerRun
          rw [hfi]
          simp only [if_true, poller_iter, hpi, if_pos hme]
          rw [heq]
          simp [pollErrors, hme, hidx]
        · obtain ⟨q2, as2, heq, hrep2⟩ :=
            ih (i + 1) f flags polls hrun2 hstop2 (by omega) (rep_push hrep m)
          refine ⟨q2, as2, ?_, ?_⟩
          · unfold pollerRun
            rw [hfi]
            simp only [if_true, poller_iter, hpi, if_neg hme]
            rw [heq]
            simp [pollErrors, hme, hidx]
          · rw [pollSuccesses, if_neg hme]
            simpa [List.append_assoc] using hrep2

/-- Shared helper: the object and collaborator state after any failed
`Consumer_init`: a descriptive error is set, nothing was started or
initialized, and the conf object is allocated but neither owned by a
client nor destroyed. -/
theorem consumer_init_fail_fields (env : BrokerEnv) (b g : String)
    (hfail : (Consumer_init env b g).1 = false) :
    (Consumer_init env b g).2.pyError.isSome = true ∧
    (Consumer_init env b g).2.pollerStarted = false ∧
    (Consumer_init env b g).2.queueInited = false ∧
    (Consumer_init env b g).2.rkCreated = false ∧
    (Consumer_init env b g).2.run_poller = false ∧
    (Consumer_init env b g).2.confAllocated = true ∧
    (Consumer_init env b g).2.confOwnedByClient = false ∧
    (Consumer_init env b g).2.confDestroyed = false := by
  revert hfail
  unfold Consumer_init
  cases env.confSet "bootstrap.servers" b <;>
    cases env.confSet "group.id" g <;>
      cases env.confSet "enable.auto.commit" "false" <;>
        cases env.clientNew <;>
          simp [initState0]

/-- Claim C1: for every sequence of N pushes performed in order m1..mN
into an initialized queue (single producer), the N subsequent pops return
m1..mN in that exact order. -/
theorem fifo_pushes_then_pops (ms : List KMessage) :
    ∃ q2, popAll ms.length (pushAll message_queue_init ms) = some (ms, q2) := by
  obtain ⟨as, hr⟩ := rep_pushAll rep_init ms
  obtain ⟨q2, heq, _⟩ := rep_popAll (by simpa using hr)
  exact ⟨q2, heq⟩

/-- Claim C2 (divergence of the code from the claim): the code defines no
consumer-facing receive operation at all — the `_core.Consumer` type's
method table is empty (`tp_methods` unset) and the `_core` module exposes
only `create_consumer` — although the claim (and the rest of the design)
requires a `receive()` delegating to the queue's pop; the queue's blocking
pop has no caller anywhere in the code. -/
theorem consumer_receive_method_absent :
    "receive" ∉ ConsumerType_methods ∧ "receive" ∉ core_module_methods := by
  constructor
  · simp [ConsumerType_methods]
  · simp [core_module_methods]

/-- Claim C3: for every reachable queue state, head is null iff tail is
null iff size is 0, and traversal from head along next links reaches tail
in exactly size steps; pushes and pops preserve this (reachability is
closed under both operations). -/
theorem queue_invariant_reachable {q : MessageQueue} (h : Reachable q) :
    QueueInvariantHolds q := by
  obtain ⟨as, ms, hc, htail, hsize, hnd, hlt⟩ := reachable_rep h
  have h1 : q.head = none ↔ as = [] := by
    constructor
    · intro hh
      exact (chainRep_head_none (hh ▸ hc)).1
    · intro ha
      subst ha
      exact (chainRep_nil_inv hc).1
  have h2 : q.tail = none ↔ as = [] := by
    rw [htail]
    exact List.getLast?_eq_none_iff
  have h3 : q.size = 0 ↔ as = [] := by
    rw [hsize]
    constructor
    · intro hz
      have hz2 : as.length = 0 := by exact_mod_cast hz
      exact List.length_eq_zero.mp hz2
    · intro ha
      subst ha
      simp
  exact ⟨h1.trans h2.symm, h1.trans h3.symm, as, ms, hc, htail, hsize⟩

/-- Witness for C3 at a concrete reachable state. -/
theorem queue_invariant_reachable_witness :
    QueueInvariantHolds (message_queue_push message_queue_init ⟨false, 7⟩) :=
  queue_invariant_reachable (Reachable.push ⟨false, 7⟩ Reachable.init)

/-- Claim C4: with the running flag set for the first n iterations and
cleared at iteration n, the background loop processes exactly the first n
poll results no matter how many report errors: each error record is
destroyed and the loop continues, the successfully received messages are
pushed in order, the loop exits exactly at the flag-cleared iteration (and
never because of a receive error), and no error record ever enters the
handoff queue, so no error is surfaced to a consumer. -/
theorem poller_error_absorption (flags : Nat → Bool) (polls : Nat → PollResult)
    (n : Nat) (hrun : ∀ j, j < n → flags j = true) (hstop : flags n = false) :
    ∃ q2 as2,
      pollerRun flags polls (n + 1) 0 message_queue_init =
        some (q2, pollErrors (pollsFrom polls 0 n), n) ∧
      QueueRep q2 as2 (pollSuccesses (pollsFrom polls 0 n)) ∧
      ∀ m ∈ pollSuccesses (pollsFrom polls 0 n), m.err = false := by
  obtain ⟨q2, as2, heq, hrep⟩ := pollerRun_spec 0 (n + 1) flags polls
    (by intro j hj; simpa using hrun j hj) (by simpa using hstop)
    (le_refl _) rep_init
  exact ⟨q2, as2, by simpa using heq, by simpa using hrep, pollSuccesses_no_err⟩

/-- Witness for C4: flag cleared at iteration 3, polls = error, success,
timeout. -/
theorem poller_error_absorption_witness :
    (∀ j, j < 3 → wFlags j = true) ∧ wFlags 3 = false ∧
    ∃ q2 as2,
      pollerRun wFlags wPolls 4 0 message_queue_init =
        some (q2, pollErrors (pollsFrom wPolls 0 3), 3) ∧
      QueueRep q2 as2 (pollSuccesses (pollsFrom wPolls 0 3)) ∧
      ∀ m ∈ pollSuccesses (pollsFrom wPolls 0 3), m.err = false :=
  ⟨fun j hj => by simp [wFlags]; omega, rfl,
   poller_error_absorption wFlags wPolls 3
     (fun j hj => by simp [wFlags]; omega) rfl⟩

/-- Claim C5: `Consumer_dealloc` first clears `run_poller`, then joins the
poller thread (blocking until the thread function has returned, so
teardown cannot proceed, let alone return, before the background activity
has fully exited), and only after the join closes and destroys the broker
client handle, then destroys the queue, then frees the object; the loop's
bounded wait is the 1000 ms (1 second) poll timeout, and once the flag
reads false the loop exits at that very read without consuming another
poll — so shutdown waits at most the one in-flight bounded receive. -/
theorem dealloc_order_and_shutdown_bound :
    (Consumer_dealloc_steps.indexOf DAction.clearRunFlag <
        Consumer_dealloc_steps.indexOf DAction.joinPoller ∧
      Consumer_dealloc_steps.indexOf DAction.joinPoller <
        Consumer_dealloc_steps.indexOf DAction.consumerClose ∧
      Consumer_dealloc_steps.indexOf DAction.consumerClose <
        Consumer_dealloc_steps.indexOf DAction.clientDestroy ∧
      Consumer_dealloc_steps.indexOf DAction.clientDestroy <
        Consumer_dealloc_steps.indexOf DAction.queueDestroy ∧
      Consumer_dealloc_steps.indexOf DAction.queueDestroy <
        Consumer_dealloc_steps.indexOf DAction.freeObject) ∧
    poll_timeout_ms = 1000 ∧
    ∀ (flags : Nat → Bool) (polls : Nat → PollResult) (n : Nat)
      {q : MessageQueue} {as : List Addr} {ms : List KMessage},
      (∀ j, j < n → flags j = true) → flags n = false → QueueRep q as ms →
      ∃ q2 rel, pollerRun flags polls (n + 1) 0 q = some (q2, rel, n) := by
  refine ⟨by decide, rfl, ?_⟩
  intro flags polls n q as ms hrun hstop hrep
  obtain ⟨q2, as2, heq, _⟩ := pollerRun_spec 0 (n + 1) flags polls
    (by intro j hj; simpa using hrun j hj) (by simpa using hstop)
    (le_refl _) hrep
  exact ⟨q2, _, by simpa using heq⟩

/-- Witness for C5: the loop exits at the very first cleared-flag read. -/
theorem dealloc_order_and_shutdown_bound_witness :
    ∃ q2 rel, pollerRun wFlagsOff wPolls 1 0 message_queue_init =
      some (q2, rel, 0) :=
  dealloc_order_and_shutdown_bound.2.2 wFlagsOff wPolls 0
    (fun j hj => absurd hj (by omega)) rfl rep_init

/-- Counterexample to claim C6 as stated: with a collaborator that accepts
every setting (as librdkafka does for string properties), constructing
with an empty endpoints string succeeds and the background poller thread
is started — `Consumer_init` performs no non-emptiness validation of its
own. -/
theorem init_empty_endpoints_succeeds :
    (Consumer_init envAcceptAll "" "g1").1 = true ∧
    (Consumer_init envAcceptAll "" "g1").2.pollerStarted = true := by
  constructor
  · rfl
  · rfl

/-- Claim C6 amended: `Consumer_init` does not itself validate the
endpoints or group-identifier strings; it fails exactly when the external
client rejects one of the three settings or client creation fails, and
whenever it fails no background poller is started. -/
theorem init_validation_delegated (env : BrokerEnv) (b g : String) :
    ((Consumer_init env b g).1 = false ↔
      (env.confSet "bootstrap.servers" b).isSome = true ∨
      (env.confSet "group.id" g).isSome = true ∨
      (env.confSet "enable.auto.commit" "false").isSome = true ∨
      env.clientNew.isSome = true) ∧
    ((Consumer_init env b g).1 = false →
      (Consumer_init env b g).2.pollerStarted = false) := by
  unfold Consumer_init
  cases env.confSet "bootstrap.servers" b <;>
    cases env.confSet "group.id" g <;>
      cases env.confSet "enable.auto.commit" "false" <;>
        cases env.clientNew <;>
          simp [initState0]

/-- Witness for C6's amended claim at a concrete environment. -/
theorem init_validation_delegated_witness :
    ((Consumer_init envRejectGroup "b:9092" "g1").1 = false ↔
      (envRejectGroup.confSet "bootstrap.servers" "b:9092").isSome = true ∨
      (envRejectGroup.confSet "group.id" "g1").isSome = true ∨
      (envRejectGroup.confSet "enable.auto.commit" "false").isSome = true ∨
      envRejectGroup.clientNew.isSome = true) ∧
    ((Consumer_init envRejectGroup "b:9092" "g1").1 = false →
      (Consumer_init envRejectGroup "b:9092" "g1").2.pollerStarted = false) :=
  init_validation_delegated envRejectGroup "b:9092" "g1"

/-- Counterexample to claim C7 as stated: on a configuration failure (the
client rejects group.id) a descriptive error is surfaced and nothing
further runs, but the configuration object allocated at entry is neither
handed to a client nor destroyed — a resource remains allocated, so "no
partial state is retained / no resources held" fails as stated. -/
theorem init_failure_leaks_conf :
    (Consumer_init envRejectGroup "b:9092" "g1").1 = false ∧
    ¬ noResourcesHeld (Consumer_init envRejectGroup "b:9092" "g1").2 := by
  unfold noResourcesHeld
  decide

/-- Claim C7 amended: on every configuration or client-creation failure,
`Consumer_init` surfaces a descriptive error and performs no further
action — no poller thread is started, no queue is initialized, no client
handle or running flag is set — but the configuration object created at
entry is leaked: still allocated, neither owned by a client nor
destroyed. -/
theorem init_failure_object_state (env : BrokerEnv) (b g : String)
    (hfail : (Consumer_init env b g).1 = false) :
    (Consumer_init env b g).2.pyError.isSome = true ∧
    (Consumer_init env b g).2.pollerStarted = false ∧
    (Consumer_init env b g).2.queueInited = false ∧
    (Consumer_init env b g).2.rkCreated = false ∧
    (Consumer_init env b g).2.run_poller = false ∧
    (Consumer_init env b g).2.confAllocated = true ∧
    (Consumer_init env b g).2.confOwnedByClient = false ∧
    (Consumer_init env b g).2.confDestroyed = false :=
  consumer_init_fail_fields env b g hfail

/-- Witness for C7's amended claim at a concrete failing environment. -/
theorem init_failure_object_state_witness :
    (Consumer_init envRejectGroup "b:9092" "g1").2.pyError.isSome = true ∧
    (Consumer_init envRejectGroup "b:9092" "g1").2.pollerStarted = false ∧
    (Consumer_init envRejectGroup "b:9092" "g1").2.queueInited = false ∧
    (Consumer_init envRejectGroup "b:9092" "g1").2.rkCreated = false ∧
    (Consumer_init envRejectGroup "b:9092" "g1").2.run_poller = false ∧
    (Consumer_init envRejectGroup "b:9092" "g1").2.confAllocated = true ∧
    (Consumer_init envRejectGroup "b:9092" "g1").2.confOwnedByClient = false ∧
    (Consumer_init envRejectGroup "b:9092" "g1").2.confDestroyed = false :=
  init_failure_object_state envRejectGroup "b:9092" "g1" (by decide)

/-- Counterexample to claim C8 as stated: destroying a queue holding one
message leaves `head` null but `tail` still holding the freed node's
address and `size` still 1 — the drain loop never resets `tail` or
`size`, so the claimed empty-queue invariant does not hold after
destroy. -/
theorem destroy_leaves_stale_tail_size :
    (message_queue_destroy q1).map (fun r => (r.1.head, r.1.tail, r.1.size)) =
      some (none, some 0, 1) := by
  rfl

/-- Claim C8 amended: for every well-formed queue state, destroy walks
every remaining node from `head` in order, releasing each message record
and freeing each node — all before the mutex and condition variable are
released — and ends with `head = null`; but `tail` and `size` are left
unchanged rather than reset, so only `head` satisfies the empty-queue
condition afterwards. -/
theorem destroy_drains_all_messages {q : MessageQueue} {as : List Addr}
    {ms : List KMessage} (hr : QueueRep q as ms) :
    ∃ q2, message_queue_destroy q =
        some (q2, QEvent.lockQ :: drainEvents as ms ++
          [QEvent.unlockQ, QEvent.mutexDestroy, QEvent.condDestroy]) ∧
      q2.head = none ∧ q2.tail = q.tail ∧ q2.size = q.size :=
  rep_destroy hr

/-- Witness for C8's amended claim on the one-message queue. -/
theorem destroy_drains_all_messages_witness :
    ∃ q2, message_queue_destroy q1 =
        some (q2, QEvent.lockQ :: drainEvents [0] [⟨false, 42⟩] ++
          [QEvent.unlockQ, QEvent.mutexDestroy, QEvent.condDestroy]) ∧
      q2.head = none ∧ q2.tail = q1.tail ∧ q2.size = q1.size :=
  destroy_drains_all_messages (rep_push rep_init ⟨false, 42⟩)

/-- Claim C9 (divergence of the code from the required discipline): the
`run_poller` flag — the sole cross-thread coordination signal outside the
queue, written by `Consumer_dealloc` and read every iteration by
`poller_thread_func` — is a plain `int` accessed with ordinary non-atomic
loads and stores; it does not use an acquire/release (or stronger)
primitive as the claim requires. -/
theorem run_poller_not_acquire_release :
    run_poller_decl.access = MemOrder.plain ∧
    run_poller_decl.access.atLeastAcqRel = false := by
  constructor
  · rfl
  · rfl

/-- Claim C10: whenever `Consumer_init` fails, `create_consumer` releases
the object, running the full `Consumer_dealloc` sequence — clearing the
flag, joining the never-started poller thread, closing and destroying the
never-created client handle, destroying the never-initialized queue,
freeing the object — on an object none of whose fields were ever set; and
the failure precondition is satisfiable (client-creation failure reaches
this branch), so the branch is not unreachable. -/
theorem create_consumer_failure_runs_full_dealloc :
    (∀ (env : BrokerEnv) (b g : String),
      (Consumer_init env b g).1 = false →
      (create_consumer env b g).success = false ∧
      (create_consumer env b g).deallocRan = true ∧
      (create_consumer env b g).deallocTrace = Consumer_dealloc_steps ∧
      (create_consumer env b g).stateAtDealloc = some (Consumer_init env b g).2 ∧
      (Consumer_init env b g).2.pollerStarted = false ∧
      (Consumer_init env b g).2.rkCreated = false ∧
      (Consumer_init env b g).2.queueInited = false) ∧
    ∃ env : BrokerEnv, (Consumer_init env "b:9092" "g1").1 = false := by
  constructor
  · intro env b g hfail
    obtain ⟨_, hps, hqi, hrk, _, _, _, _⟩ := consumer_init_fail_fields env b g hfail
    refine ⟨?_, ?_, ?_, ?_, hps, hrk, hqi⟩ <;>
      simp [create_consumer, hfail]
  · exact ⟨envNewFails, by decide⟩

/-- Witness for C10 at a concrete environment whose client creation
fails. -/
theorem create_consumer_failure_runs_full_dealloc_witness :
    (create_consumer envNewFails "b:9092" "g1").success = false ∧
    (create_consumer envNewFails "b:9092" "g1").deallocRan = true ∧
    (create_consumer envNewFails "b:9092" "g1").deallocTrace = Consumer_dealloc_steps ∧
    (create_consumer envNewFails "b:9092" "g1").stateAtDealloc =
      some (Consumer_init envNewFails "b:9092" "g1").2 ∧
    (Consumer_init envNewFails "b:9092" "g1").2.pollerStarted = false ∧
    (Consumer_init envNewFails "b:9092" "g1").2.rkCreated = false ∧
    (Consumer_init envNewFails "b:9092" "g1").2.queueInited = false :=
  create_consumer_failure_runs_full_dealloc.1 envNewFails "b:9092" "g1" (by decide)

end Asynkaf
